import Mathlib

/-!
Shallow embedding of `perp_ratio_calculator.py`.

Numbers are modelled as exact rationals (`ℚ`).  Python dictionaries keyed by
symbol are modelled as insertion-ordered association lists, exactly the
iteration order Python guarantees.  Fallible operations (network calls, JSON
field access, `float()` conversion) are modelled with `Except`.
-/

namespace PerpRatio

/-- A perpetual-futures position as consumed by the calculator: the fields of
the ccxt position dictionary that the source reads (`symbol`, `side`,
`contracts`, `notional`, `unrealizedPnl`).  `notional` is `none` when the
exchange returns a null notional; `unrealizedPnl` is `none` when absent. -/
structure Position where
  symbol : String
  side : String
  contracts : ℚ
  notional : Option ℚ
  unrealizedPnl : Option ℚ
deriving DecidableEq

/-- Insertion-ordered map from symbols to rationals (a Python dict). -/
abbrev QMap := List (String × ℚ)

/-- The hard-coded excluded-ticker set of `calculate_long_short_ratio`. -/
def excluded_tickers : List String :=
  ["PAXGUSDT", "BTCDOMUSDT", "PAXG/USDT", "BTCDOM/USDT",
   "PAXG/USDT:USDT", "BTCDOM/USDT:USDT"]

/-- Python `abs` on a rational. -/
def pyAbs (q : ℚ) : ℚ := if q < 0 then -q else q

/-- `d[k] += v`, inserting `d[k] = 0` first when the key is absent — the
`if symbol not in symbol_positions: symbol_positions[symbol] = 0` pattern,
with Python's insertion order preserved. -/
def addTo (m : QMap) (k : String) (v : ℚ) : QMap :=
  match m with
  | [] => [(k, v)]
  | (k', v') :: t => if k' = k then (k', v' + v) :: t else (k', v') :: addTo t k v

/-- Value stored at key `k`, or `0` when the key is absent. -/
def lookup0 (k : String) (m : QMap) : ℚ :=
  match m with
  | [] => 0
  | (k', v') :: t => if k' = k then v' else lookup0 k t

/-- The keys of a map, in insertion order. -/
def keys (m : QMap) : List String := m.map Prod.fst

/-- `symbol.startswith('BTC')`. -/
def startsWithBTC (s : String) : Bool := "BTC".data.isPrefixOf s.data

/-- The signed notional contribution of one position (source lines 200–218):
Bybit folds unrealized PnL into the signed notional, other exchanges use the
absolute notional; a side that is neither `long` nor `short` is skipped
(`none`, the `continue` branches). -/
def notionalValue (exchangeName side : String) (notional unrealized_pnl : ℚ) :
    Option ℚ :=
  if exchangeName = "bybit" then
    if side = "long" then some (pyAbs notional + unrealized_pnl)
    else if side = "short" then some (-(pyAbs notional - unrealized_pnl))
    else none
  else
    if side = "long" then some (pyAbs notional)
    else if side = "short" then some (-(pyAbs notional))
    else none

/-- The pair of accumulator dicts built by the first loop of
`calculate_long_short_ratio`. -/
structure AggMaps where
  symbol_positions : QMap
  symbol_pnl : QMap
deriving DecidableEq

/-- One iteration of the grouping loop (source lines 187–224): skip excluded
symbols, skip null notionals, skip invalid sides, otherwise accumulate the
signed notional and the unrealized PnL under the position's symbol. -/
def step (exchangeName : String) (st : AggMaps) (pos : Position) : AggMaps :=
  if pos.symbol ∈ excluded_tickers then st
  else
    match pos.notional with
    | none => st
    | some notional =>
      let unrealized_pnl := pos.unrealizedPnl.getD 0
      match notionalValue exchangeName pos.side notional unrealized_pnl with
      | none => st
      | some notional_value =>
        { symbol_positions := addTo st.symbol_positions pos.symbol notional_value
          symbol_pnl := addTo st.symbol_pnl pos.symbol unrealized_pnl }

/-- The grouping loop over the whole position list. -/
def buildMaps (exchangeName : String) (positions : List Position) : AggMaps :=
  positions.foldl (step exchangeName) ⟨[], []⟩

/-- One iteration of the raw-totals loop (source lines 230–234). -/
def rawStep (acc : ℚ × ℚ) (kv : String × ℚ) : ℚ × ℚ :=
  if 0 < kv.2 then (acc.1 + kv.2, acc.2)
  else if kv.2 < 0 then (acc.1, acc.2 + pyAbs kv.2)
  else acc

/-- Raw long/short totals: the unweighted second loop of the source. -/
def rawTotals (m : QMap) : ℚ × ℚ := m.foldl rawStep (0, 0)

/-- The BTC half-weight rule: `0.5 if symbol.startswith('BTC') else 1.0`. -/
def weightOf (symbol : String) : ℚ := if startsWithBTC symbol then 1/2 else 1

/-- One iteration of the effective-totals loop (source lines 240–246). -/
def effStep (acc : ℚ × ℚ) (kv : String × ℚ) : ℚ × ℚ :=
  if 0 < kv.2 then (acc.1 + kv.2 * weightOf kv.1, acc.2)
  else if kv.2 < 0 then (acc.1, acc.2 + pyAbs kv.2 * weightOf kv.1)
  else acc

/-- Effective (weighted) long/short totals: the third loop of the source. -/
def effectiveTotals (m : QMap) : ℚ × ℚ := m.foldl effStep (0, 0)

/-- The ratio value: a finite rational or the `float('inf')` sentinel. -/
inductive Ratio where
  | finite (q : ℚ)
  | inf
deriving DecidableEq

/-- The aggregation result dictionary returned by
`calculate_long_short_ratio`. -/
structure ExposureSummary where
  raw_long_total : ℚ
  raw_short_total : ℚ
  effective_long_total : ℚ
  effective_short_total : ℚ
  long_short_ratio : Ratio
  symbol_positions : QMap
  symbol_pnl : QMap
  overall_pnl : ℚ
deriving DecidableEq

/-- `PerpRatioCalculator.calculate_long_short_ratio` (source lines 180–266). -/
def calculate_long_short_ratio (exchangeName : String)
    (positions : List Position) : ExposureSummary :=
  let maps := buildMaps exchangeName positions
  let raw := rawTotals maps.symbol_positions
  let eff := effectiveTotals maps.symbol_positions
  let ratio :=
    if 0 < eff.2 then Ratio.finite (eff.1 / eff.2)
    else if 0 < eff.1 then Ratio.inf else Ratio.finite 0
  let overall_pnl := (maps.symbol_pnl.map Prod.snd).sum
  { raw_long_total := raw.1
    raw_short_total := raw.2
    effective_long_total := eff.1
    effective_short_total := eff.2
    long_short_ratio := ratio
    symbol_positions := maps.symbol_positions
    symbol_pnl := maps.symbol_pnl
    overall_pnl := overall_pnl }

/-- Unrealized PnL of a position as the source reads it:
`pos.get('unrealizedPnl', 0) or 0`, i.e. `0` when absent. -/
def pnlOf (p : Position) : ℚ := p.unrealizedPnl.getD 0

/-- The signed notional a single position adds to its symbol's accumulator
(`0` when the position is skipped: excluded symbol, null notional, or a side
that is neither `long` nor `short`). -/
def contribQ (exchangeName : String) (p : Position) : ℚ :=
  if p.symbol ∈ excluded_tickers then 0
  else
    match p.notional with
    | none => 0
    | some n => (notionalValue exchangeName p.side n (pnlOf p)).getD 0

/-- Sum of the signed contributions of all positions carrying symbol `s`. -/
def netContrib (exchangeName s : String) (positions : List Position) : ℚ :=
  (positions.map fun p => if p.symbol = s then contribQ exchangeName p else 0).sum

/-- Prefix of `l` strictly before the first occurrence of `needle`, or `none`
when `needle` does not occur — Python's `needle in l` plus
`l.split(needle)[0]` in one function. -/
def takeBefore (needle : List Char) : List Char → Option (List Char)
  | [] => if needle.isEmpty then some [] else none
  | c :: t =>
    if needle.isPrefixOf (c :: t) then some []
    else (takeBefore needle t).map (fun pre => c :: pre)

/-- `PerpRatioCalculator._clean_symbol` on character lists: keep everything
before the first `:USDT` occurrence when there is one, else before the first
`:USDC` occurrence, else the input unchanged. -/
def cleanSymbolData (l : List Char) : List Char :=
  match takeBefore ":USDT".data l with
  | some pre => pre
  | none =>
    match takeBefore ":USDC".data l with
    | some pre => pre
    | none => l

/-- `PerpRatioCalculator._clean_symbol` (source lines 72–79). -/
def cleanSymbol (s : String) : String := String.mk (cleanSymbolData s.data)

/-- Modelled from the spec: the display transform as the spec words it —
"strips any trailing settlement-currency suffix (\x22:USDT\x22, \x22:USDC\x22)" —
i.e. remove the suffix exactly when the symbol ends with it.  Stated only to
be compared with `cleanSymbol`, the transform the source implements. -/
def stripTrailingSuffix (s : String) : String :=
  if ":USDT".data.isSuffixOf s.data ∨ ":USDC".data.isSuffixOf s.data then
    String.mk (s.data.take (s.data.length - 5))
  else s

/-- A JSON-like value: the shape of the raw exchange / Telegram payloads the
source inspects.  `int` and `num` keep Python's `int` / `float` distinction
(JSON integers decode to `int`), which `isinstance(…, int)` relies on. -/
inductive JVal where
  | null
  | bool (b : Bool)
  | int (n : ℤ)
  | num (q : ℚ)
  | str (s : String)
  | arr (l : List JVal)
  | obj (l : List (String × JVal))

/-- Python truthiness of a `JVal`. -/
def truthy : JVal → Bool
  | .null => false
  | .bool b => b
  | .int n => n ≠ 0
  | .num q => q ≠ 0
  | .str s => s ≠ ""
  | .arr l => !l.isEmpty
  | .obj l => !l.isEmpty

/-- First value stored under a key in an object's field list. -/
def jlookup : List (String × JVal) → String → Option JVal
  | [], _ => none
  | (k, v) :: t, s => if k = s then some v else jlookup t s

/-- `v.get(k, d)`: raises (`Except.error`) when `v` is not a dict. -/
def getE (v : JVal) (k : String) (d : JVal) : Except String JVal :=
  match v with
  | .obj l => .ok ((jlookup l k).getD d)
  | _ => .error "AttributeError"

/-- `v[i]` on a JSON value: `IndexError` past the end, `TypeError` when `v`
is not a list. -/
def getIdxE (v : JVal) (i : Nat) : Except String JVal :=
  match v with
  | .arr l =>
    match l.get? i with
    | some x => .ok x
    | none => .error "IndexError"
  | _ => .error "TypeError"

/-- Digits to a natural number, most significant first. -/
def natOfDigits (l : List Char) : Nat :=
  l.foldl (fun acc c => acc * 10 + (c.toNat - 48)) 0

/-- Model of Python's `float()` on the decimal strings the exchanges emit:
an optional sign, digits, an optional fractional part; anything else raises
`ValueError`. -/
def parseDec (s : String) : Option ℚ :=
  let l := s.data
  let sign : ℚ := if l.head? = some '-' then -1 else 1
  let l := if l.head? = some '-' ∨ l.head? = some '+' then l.tail else l
  let intPart := l.takeWhile Char.isDigit
  let rest := l.dropWhile Char.isDigit
  match rest with
  | [] => if intPart.isEmpty then none else some (sign * natOfDigits intPart)
  | '.' :: frac =>
    if frac.all Char.isDigit ∧ (intPart ≠ [] ∨ frac ≠ []) then
      some (sign * (natOfDigits intPart + (natOfDigits frac : ℚ) / 10 ^ frac.length))
    else none
  | _ => none

/-- `float(v)`: numbers and bools convert, decimal strings parse, everything
else raises. -/
def floatE : JVal → Except String ℚ
  | .int n => .ok n
  | .num q => .ok q
  | .bool b => .ok (if b then 1 else 0)
  | .str s =>
    match parseDec s with
    | some q => .ok q
    | none => .error "ValueError"
  | .null => .error "TypeError"
  | .arr _ => .error "TypeError"
  | .obj _ => .error "TypeError"

/-- The `float(x) if x else 0` pattern of the balance extraction. -/
def pyFloatOr0 (v : JVal) : Except String ℚ :=
  if truthy v then floatE v else .ok 0

/-- The zero-filled / extracted balance dictionary of
`fetch_account_balance`. -/
structure BalanceSummary where
  total_wallet_balance : ℚ
  total_unrealized_pnl : ℚ
  total_margin_balance : ℚ
deriving DecidableEq

/-- The zero-filled balance summary returned on every failure path. -/
def zeroBalance : BalanceSummary := ⟨0, 0, 0⟩

/-- Binance branch of `fetch_account_balance` (source lines 128–138). -/
def extractBinance (balance : JVal) : Except String BalanceSummary := do
  let info ← getE balance "info" (.obj [])
  let twb ← getE info "totalWalletBalance" (.int 0)
  let tup ← getE info "totalUnrealizedProfit" (.int 0)
  let tmb ← getE info "totalMarginBalance" (.int 0)
  let w ← pyFloatOr0 twb
  let u ← pyFloatOr0 tup
  let m ← pyFloatOr0 tmb
  return ⟨w, u, m⟩

/-- Bybit branch of `fetch_account_balance` (source lines 139–149). -/
def extractBybit (balance : JVal) : Except String BalanceSummary := do
  let info ← getE balance "info" (.obj [])
  let res ← getE info "result" (.obj [])
  let lst ← getE res "list" (.arr [.obj []])
  let first ← getIdxE lst 0
  let te ← getE first "totalEquity" (.int 0)
  let twb ← getE first "totalWalletBalance" (.int 0)
  let tup ← getE first "totalPerpUPL" (.int 0)
  let w ← pyFloatOr0 twb
  let u ← pyFloatOr0 tup
  let m ← pyFloatOr0 te
  return ⟨w, u, m⟩

/-- Python `v == 'USDT'`-style comparison against a string: only a string
value can compare equal. -/
def jeqStr : JVal → String → Bool
  | .str t, s => t = s
  | _, _ => false

/-- The `for asset_balance in balance_info` loop of the Bitget branch:
returns the summary of the first `USDT` margin-coin entry, `none` when the
loop falls through. -/
def bitgetScan : List JVal → Except String (Option BalanceSummary)
  | [] => .ok none
  | a :: t => do
    let mc ← getE a "marginCoin" .null
    if jeqStr mc "USDT" then
      let avv ← getE a "available" (.int 0)
      let av ← floatE avv
      let lkv ← getE a "locked" (.int 0)
      let lk ← floatE lkv
      let twb := av + lk
      let upv ← getE a "unrealizedPL" (.int 0)
      let up ← floatE upv
      let eqv ← getE a "accountEquity" (.num twb)
      let eqq ← floatE eqv
      return some ⟨twb, up, eqq⟩
    else
      bitgetScan t

/-- Bitget branch of `fetch_account_balance` (source lines 150–173): the
whole lookup sits in an inner `try`/`except: pass`, so every failure — and a
fall-through — degrades to the zero-filled summary. -/
def extractBitget (balance : JVal) : BalanceSummary :=
  let attempt : Except String (Option BalanceSummary) :=
    match getE balance "info" (.arr []) with
    | .error e => .error e
    | .ok info =>
      match info with
      | .arr (a :: t) => bitgetScan (a :: t)
      | _ => .ok none
  match attempt with
  | .ok (some s) => s
  | _ => zeroBalance

/-- Per-exchange balance extraction: the `if`/`elif` chain inside the outer
`try` of `fetch_account_balance`. -/
def extractBalance (exchangeName : String) (balance : JVal) :
    Except String BalanceSummary :=
  if exchangeName = "binance" then extractBinance balance
  else if exchangeName = "bybit" then extractBybit balance
  else if exchangeName = "bitget" then .ok (extractBitget balance)
  else .ok zeroBalance

/-- Whether an `Except` is an error. -/
def isErr {ε α : Type} : Except ε α → Bool
  | .error _ => true
  | .ok _ => false

/-- `PerpRatioCalculator.fetch_account_balance` (source lines 124–178):
`fetched` is the outcome of the ccxt `fetch_balance()` call; the outer
`except` turns any failure into the zero-filled summary. -/
def fetch_account_balance (exchangeName : String)
    (fetched : Except String JVal) : BalanceSummary :=
  match fetched with
  | .error _ => zeroBalance
  | .ok b =>
    match extractBalance exchangeName b with
    | .ok s => s
    | .error _ => zeroBalance

/-- `PerpRatioCalculator.fetch_positions` (source lines 116–122): `fetched`
is the outcome of the ccxt `fetch_positions()` call; failures degrade to the
empty list, successes keep positions with positive contract count. -/
def fetch_positions (fetched : Except String (List Position)) :
    List Position :=
  match fetched with
  | .error _ => []
  | .ok ps => ps.filter fun p => 0 < p.contracts

/-- An HTTP response as `send_telegram_message` consumes it: whether
`raise_for_status()` passes, and the outcome of `.json()`. -/
structure HttpResp where
  httpOk : Bool
  body : Except String JVal

/-- Python `v == 429`-style comparison against an integer. -/
def jeqInt : JVal → ℤ → Bool
  | .int m, n => m = n
  | .num q, n => q = (n : ℚ)
  | .bool b, n => (if b then (1 : ℤ) else 0) = n
  | _, _ => false

/-- The guard `retry_after and isinstance(retry_after, int) and
retry_after > 0`, returning the number of seconds slept when it passes.
A JSON `true` is a Python `bool`, a subtype of `int`, and sleeps 1 second. -/
def validRetryAfter : JVal → Option ℚ
  | .int n => if 0 < n then some (n : ℚ) else none
  | .bool b => if b then some 1 else none
  | _ => none

/-- Observable behaviour of one `send_telegram_message` call: number of
HTTP posts made, the sleeps performed, and whether a response with a truthy
`ok` was obtained.  The function being total models that no failure is ever
raised to the caller. -/
structure SendTrace where
  posts : Nat
  sleeps : List ℚ
  delivered : Bool
deriving DecidableEq

/-- The single retry after a rate limit (source lines 38–47): one more post,
whose own failures are caught by the surrounding handlers. -/
def retryStep (second : Except String HttpResp) (delay : ℚ) : SendTrace :=
  match second with
  | .error _ => ⟨2, [delay], false⟩
  | .ok r2 =>
    if r2.httpOk then
      match r2.body with
      | .error _ => ⟨2, [delay], false⟩
      | .ok (.obj l2) => ⟨2, [delay], truthy ((jlookup l2 "ok").getD .null)⟩
      | .ok _ => ⟨2, [delay], false⟩
    else ⟨2, [delay], false⟩

/-- `send_telegram_message` (source lines 18–57).  `first` and `second` are
the outcomes of the two possible `requests.post` calls (`Except.error` is a
`RequestException`).  Every failure is caught inside the function, so it
always returns a trace. -/
def send_telegram_message (first second : Except String HttpResp) :
    SendTrace :=
  match first with
  | .error _ => ⟨1, [], false⟩
  | .ok r1 =>
    if r1.httpOk then
      match r1.body with
      | .error _ => ⟨1, [], false⟩
      | .ok (.obj l) =>
        if truthy ((jlookup l "ok").getD .null) then ⟨1, [], true⟩
        else if jeqInt ((jlookup l "error_code").getD .null) 429 then
          match (jlookup l "parameters").getD (.obj []) with
          | .obj pl =>
            match validRetryAfter ((jlookup pl "retry_after").getD .null) with
            | some delay => retryStep second delay
            | none => ⟨1, [], false⟩
          | _ => ⟨1, [], false⟩
        else ⟨1, [], false⟩
      | .ok _ => ⟨1, [], false⟩
    else ⟨1, [], false⟩

theorem pyAbs_eq_abs (q : ℚ) : pyAbs q = |q| := by
  unfold pyAbs
  split
  · exact (abs_of_neg (by assumption)).symm
  · exact (abs_of_nonneg (le_of_not_lt (by assumption))).symm

theorem pyAbs_nonneg (q : ℚ) : 0 ≤ pyAbs q := by
  rw [pyAbs_eq_abs]; exact abs_nonneg q

theorem lookup0_addTo (m : QMap) (k : String) (v : ℚ) (s : String) :
    lookup0 s (addTo m k v) = lookup0 s m + (if k = s then v else 0) := by
  induction m with
  | nil =>
    by_cases h : k = s <;> simp [addTo, lookup0, h]
  | cons kv t ih =>
    obtain ⟨k', v'⟩ := kv
    by_cases hk : k' = k
    · subst hk
      by_cases hs : k' = s <;> simp [addTo, lookup0, hs]
    · by_cases hs : k' = s
      · have hks : ¬ k = s := fun h => hk (by rw [hs, h])
        have hsk : ¬ s = k := fun h => hks h.symm
        simp [addTo, lookup0, hk, hs, hks, hsk]
      · simp [addTo, lookup0, hk, hs, ih]

theorem keys_nil : keys [] = [] := rfl

theorem keys_cons (k : String) (v : ℚ) (t : QMap) :
    keys ((k, v) :: t) = k :: keys t := rfl

theorem mem_keys_addTo (m : QMap) (k : String) (v : ℚ) (s : String) :
    s ∈ keys (addTo m k v) ↔ s ∈ keys m ∨ s = k := by
  induction m with
  | nil => simp [addTo, keys_cons, keys_nil]
  | cons kv t ih =>
    obtain ⟨k', v'⟩ := kv
    by_cases hk : k' = k
    · subst hk
      have ha : addTo ((k', v') :: t) k' v = (k', v' + v) :: t := by
        simp [addTo]
      rw [ha, keys_cons, List.mem_cons, keys_cons, List.mem_cons]
      tauto
    · have ha : addTo ((k', v') :: t) k v = (k', v') :: addTo t k v := by
        simp [addTo, hk]
      rw [ha, keys_cons, List.mem_cons, ih, keys_cons, List.mem_cons]
      tauto

theorem rawTotals_foldl (m : QMap) (a b : ℚ) :
    m.foldl rawStep (a, b) =
      (a + (m.map fun kv => if 0 < kv.2 then kv.2 else 0).sum,
       b + (m.map fun kv => if kv.2 < 0 then pyAbs kv.2 else 0).sum) := by
  induction m generalizing a b with
  | nil => simp
  | cons kv t ih =>
    by_cases h1 : 0 < kv.2
    · have h2 : ¬ kv.2 < 0 := asymm h1
      simp [rawStep, h1, h2, ih, add_assoc]
    · by_cases h2 : kv.2 < 0
      · simp [rawStep, h1, h2, ih, add_assoc]
      · simp [rawStep, h1, h2, ih]

theorem rawTotals_eq (m : QMap) :
    rawTotals m =
      ((m.map fun kv => if 0 < kv.2 then kv.2 else 0).sum,
       (m.map fun kv => if kv.2 < 0 then pyAbs kv.2 else 0).sum) := by
  simpa using rawTotals_foldl m 0 0

theorem effectiveTotals_foldl (m : QMap) (a b : ℚ) :
    m.foldl effStep (a, b) =
      (a + (m.map fun kv => if 0 < kv.2 then kv.2 * weightOf kv.1 else 0).sum,
       b + (m.map fun kv => if kv.2 < 0 then pyAbs kv.2 * weightOf kv.1 else 0).sum) := by
  induction m generalizing a b with
  | nil => simp
  | cons kv t ih =>
    by_cases h1 : 0 < kv.2
    · have h2 : ¬ kv.2 < 0 := asymm h1
      simp [effStep, h1, h2, ih, add_assoc]
    · by_cases h2 : kv.2 < 0
      · simp [effStep, h1, h2, ih, add_assoc]
      · simp [effStep, h1, h2, ih]

theorem effectiveTotals_eq (m : QMap) :
    effectiveTotals m =
      ((m.map fun kv => if 0 < kv.2 then kv.2 * weightOf kv.1 else 0).sum,
       (m.map fun kv => if kv.2 < 0 then pyAbs kv.2 * weightOf kv.1 else 0).sum) := by
  simpa using effectiveTotals_foldl m 0 0

theorem weightOf_nonneg (s : String) : 0 ≤ weightOf s := by
  unfold weightOf; split <;> norm_num

theorem effectiveTotals_snd_nonneg (m : QMap) : 0 ≤ (effectiveTotals m).2 := by
  rw [effectiveTotals_eq]
  apply List.sum_nonneg
  intro x hx
  simp only [List.mem_map] at hx
  obtain ⟨kv, _, rfl⟩ := hx
  split
  · exact mul_nonneg (pyAbs_nonneg _) (weightOf_nonneg _)
  · exact le_refl 0

theorem notionalValue_none_of_bad_side (exchangeName side : String)
    (n pnl : ℚ) (hl : side ≠ "long") (hs : side ≠ "short") :
    notionalValue exchangeName side n pnl = none := by
  unfold notionalValue
  split <;> simp [hl, hs]

theorem side_of_notionalValue_some (exchangeName side : String) (n pnl v : ℚ)
    (h : notionalValue exchangeName side n pnl = some v) :
    side = "long" ∨ side = "short" := by
  by_cases hl : side = "long"
  · exact Or.inl hl
  by_cases hs : side = "short"
  · exact Or.inr hs
  rw [notionalValue_none_of_bad_side _ _ _ _ hl hs] at h
  exact absurd h (by simp)

theorem step_skip_excluded (exchangeName : String) (st : AggMaps)
    (p : Position) (h : p.symbol ∈ excluded_tickers) :
    step exchangeName st p = st := by
  simp [step, h]

theorem step_skip_side (exchangeName : String) (st : AggMaps) (p : Position)
    (hl : p.side ≠ "long") (hs : p.side ≠ "short") :
    step exchangeName st p = st := by
  by_cases hex : p.symbol ∈ excluded_tickers
  · exact step_skip_excluded _ _ _ hex
  cases hn : p.notional with
  | none => simp [step, hex, hn]
  | some n =>
    simp [step, hex, hn,
      notionalValue_none_of_bad_side exchangeName p.side n (p.unrealizedPnl.getD 0) hl hs]

theorem step_cases (exchangeName : String) (st : AggMaps) (p : Position) :
    step exchangeName st p = st ∨
      (p.symbol ∉ excluded_tickers ∧ (p.side = "long" ∨ p.side = "short") ∧
        step exchangeName st p =
          ⟨addTo st.symbol_positions p.symbol (contribQ exchangeName p),
           addTo st.symbol_pnl p.symbol (pnlOf p)⟩) := by
  by_cases hex : p.symbol ∈ excluded_tickers
  · exact Or.inl (step_skip_excluded _ _ _ hex)
  cases hn : p.notional with
  | none => exact Or.inl (by simp [step, hex, hn])
  | some n =>
    cases hv : notionalValue exchangeName p.side n (p.unrealizedPnl.getD 0) with
    | none => exact Or.inl (by simp [step, hex, hn, hv])
    | some v =>
      refine Or.inr ⟨hex, side_of_notionalValue_some _ _ _ _ _ hv, ?_⟩
      simp [step, contribQ, pnlOf, hex, hn, hv]

theorem lookup0_step (exchangeName : String) (st : AggMaps) (p : Position)
    (s : String) :
    lookup0 s (step exchangeName st p).symbol_positions =
      lookup0 s st.symbol_positions +
        (if p.symbol = s then contribQ exchangeName p else 0) := by
  unfold step contribQ
  by_cases hex : p.symbol ∈ excluded_tickers
  · simp [hex]
  · simp only [hex, if_false]
    cases hn : p.notional with
    | none => simp
    | some n =>
      cases hv : notionalValue exchangeName p.side n (p.unrealizedPnl.getD 0) with
      | none => simp [pnlOf, hv]
      | some v => simp [pnlOf, hv, lookup0_addTo]

theorem lookup0_buildMaps_aux (exchangeName s : String) (ps : List Position)
    (st : AggMaps) :
    lookup0 s (ps.foldl (step exchangeName) st).symbol_positions =
      lookup0 s st.symbol_positions + netContrib exchangeName s ps := by
  induction ps generalizing st with
  | nil => simp [netContrib]
  | cons p t ih =>
    simp only [List.foldl_cons, ih, lookup0_step, netContrib, List.map_cons,
      List.sum_cons]
    rw [add_assoc]

theorem lookup0_buildMaps (exchangeName s : String) (ps : List Position) :
    lookup0 s (buildMaps exchangeName ps).symbol_positions =
      netContrib exchangeName s ps := by
  have := lookup0_buildMaps_aux exchangeName s ps ⟨[], []⟩
  simpa [buildMaps, lookup0] using this

theorem mem_keys_step_positions (exchangeName : String) (st : AggMaps)
    (p : Position) (s : String)
    (h : s ∈ keys (step exchangeName st p).symbol_positions) :
    s ∈ keys st.symbol_positions ∨
      (p.symbol = s ∧ p.symbol ∉ excluded_tickers ∧
        (p.side = "long" ∨ p.side = "short")) := by
  rcases step_cases exchangeName st p with heq | ⟨hex, hside, heq⟩
  · rw [heq] at h
    exact Or.inl h
  · rw [heq] at h
    simp only [mem_keys_addTo] at h
    rcases h with h | h
    · exact Or.inl h
    · exact Or.inr ⟨h.symm, hex, hside⟩

theorem mem_keys_step_pnl (exchangeName : String) (st : AggMaps)
    (p : Position) (s : String)
    (h : s ∈ keys (step exchangeName st p).symbol_pnl) :
    s ∈ keys st.symbol_pnl ∨
      (p.symbol = s ∧ p.symbol ∉ excluded_tickers ∧
        (p.side = "long" ∨ p.side = "short")) := by
  rcases step_cases exchangeName st p with heq | ⟨hex, hside, heq⟩
  · rw [heq] at h
    exact Or.inl h
  · rw [heq] at h
    simp only [mem_keys_addTo] at h
    rcases h with h | h
    · exact Or.inl h
    · exact Or.inr ⟨h.symm, hex, hside⟩

theorem mem_keys_buildMaps_aux (exchangeName : String) (ps : List Position)
    (st : AggMaps) (s : String) :
    (s ∈ keys (ps.foldl (step exchangeName) st).symbol_positions →
      s ∈ keys st.symbol_positions ∨
        ∃ p ∈ ps, p.symbol = s ∧ p.symbol ∉ excluded_tickers ∧
          (p.side = "long" ∨ p.side = "short")) ∧
    (s ∈ keys (ps.foldl (step exchangeName) st).symbol_pnl →
      s ∈ keys st.symbol_pnl ∨
        ∃ p ∈ ps, p.symbol = s ∧ p.symbol ∉ excluded_tickers ∧
          (p.side = "long" ∨ p.side = "short")) := by
  induction ps generalizing st with
  | nil => simp
  | cons p t ih =>
    constructor
    · intro h
      rcases (ih (step exchangeName st p)).1 h with h' | ⟨q, hq, hrest⟩
      · rcases mem_keys_step_positions _ _ _ _ h' with h'' | h''
        · exact Or.inl h''
        · exact Or.inr ⟨p, List.mem_cons_self p t, h''⟩
      · exact Or.inr ⟨q, List.mem_cons_of_mem p hq, hrest⟩
    · intro h
      rcases (ih (step exchangeName st p)).2 h with h' | ⟨q, hq, hrest⟩
      · rcases mem_keys_step_pnl _ _ _ _ h' with h'' | h''
        · exact Or.inl h''
        · exact Or.inr ⟨p, List.mem_cons_self p t, h''⟩
      · exact Or.inr ⟨q, List.mem_cons_of_mem p hq, hrest⟩

theorem mem_keys_buildMaps_positions (exchangeName : String)
    (ps : List Position) (s : String)
    (h : s ∈ keys (buildMaps exchangeName ps).symbol_positions) :
    ∃ p ∈ ps, p.symbol = s ∧ p.symbol ∉ excluded_tickers ∧
      (p.side = "long" ∨ p.side = "short") := by
  rcases (mem_keys_buildMaps_aux exchangeName ps ⟨[], []⟩ s).1 h with h' | h'
  · simp [keys] at h'
  · exact h'

theorem mem_keys_buildMaps_pnl (exchangeName : String)
    (ps : List Position) (s : String)
    (h : s ∈ keys (buildMaps exchangeName ps).symbol_pnl) :
    ∃ p ∈ ps, p.symbol = s ∧ p.symbol ∉ excluded_tickers ∧
      (p.side = "long" ∨ p.side = "short") := by
  rcases (mem_keys_buildMaps_aux exchangeName ps ⟨[], []⟩ s).2 h with h' | h'
  · simp [keys] at h'
  · exact h'

theorem buildMaps_skip (exchangeName : String) (ps1 ps2 : List Position)
    (p : Position) (hp : ∀ st, step exchangeName st p = st) :
    buildMaps exchangeName (ps1 ++ p :: ps2) =
      buildMaps exchangeName (ps1 ++ ps2) := by
  unfold buildMaps
  rw [List.foldl_append, List.foldl_append, List.foldl_cons, hp]

theorem calculate_congr_maps (exchangeName1 exchangeName2 : String)
    (ps1 ps2 : List Position)
    (h : buildMaps exchangeName1 ps1 = buildMaps exchangeName2 ps2) :
    calculate_long_short_ratio exchangeName1 ps1 =
      calculate_long_short_ratio exchangeName2 ps2 := by
  unfold calculate_long_short_ratio
  rw [h]

theorem calc_ratio_def (exchangeName : String) (ps : List Position) :
    (calculate_long_short_ratio exchangeName ps).long_short_ratio =
      if 0 < (effectiveTotals (buildMaps exchangeName ps).symbol_positions).2 then
        Ratio.finite
          ((effectiveTotals (buildMaps exchangeName ps).symbol_positions).1 /
           (effectiveTotals (buildMaps exchangeName ps).symbol_positions).2)
      else if 0 < (effectiveTotals (buildMaps exchangeName ps).symbol_positions).1 then
        Ratio.inf
      else Ratio.finite 0 := rfl

/-- C1: for every position list the ratio is effective long over effective
short when the effective short total is positive; when it is zero the ratio
is the infinite sentinel exactly when the effective long total is positive
and the finite value `0` otherwise (the short total is never negative, so
these cases are exhaustive); and the empty position list produces zero for
all four totals, ratio `0`, empty per-symbol maps and overall PnL `0`. -/
theorem claim1_ratio_and_empty (exchangeName : String) (ps : List Position) :
    (0 < (calculate_long_short_ratio exchangeName ps).effective_short_total →
      (calculate_long_short_ratio exchangeName ps).long_short_ratio =
        Ratio.finite
          ((calculate_long_short_ratio exchangeName ps).effective_long_total /
           (calculate_long_short_ratio exchangeName ps).effective_short_total)) ∧
    ((calculate_long_short_ratio exchangeName ps).effective_short_total = 0 →
      0 < (calculate_long_short_ratio exchangeName ps).effective_long_total →
      (calculate_long_short_ratio exchangeName ps).long_short_ratio = Ratio.inf) ∧
    ((calculate_long_short_ratio exchangeName ps).effective_short_total = 0 →
      ¬ 0 < (calculate_long_short_ratio exchangeName ps).effective_long_total →
      (calculate_long_short_ratio exchangeName ps).long_short_ratio =
        Ratio.finite 0) ∧
    0 ≤ (calculate_long_short_ratio exchangeName ps).effective_short_total ∧
    calculate_long_short_ratio exchangeName [] =
      { raw_long_total := 0, raw_short_total := 0, effective_long_total := 0,
        effective_short_total := 0, long_short_ratio := Ratio.finite 0,
        symbol_positions := [], symbol_pnl := [], overall_pnl := 0 } := by
  refine ⟨?_, ?_, ?_, ?_, ?_⟩
  · intro h
    have h' : 0 < (effectiveTotals (buildMaps exchangeName ps).symbol_positions).2 := h
    rw [calc_ratio_def, if_pos h']
    rfl
  · intro h0 hl
    have h0' : (effectiveTotals (buildMaps exchangeName ps).symbol_positions).2 = 0 := h0
    have hl' : 0 < (effectiveTotals (buildMaps exchangeName ps).symbol_positions).1 := hl
    rw [calc_ratio_def, h0', if_neg (lt_irrefl 0), if_pos hl']
  · intro h0 hl
    have h0' : (effectiveTotals (buildMaps exchangeName ps).symbol_positions).2 = 0 := h0
    have hl' : ¬ 0 < (effectiveTotals (buildMaps exchangeName ps).symbol_positions).1 := hl
    rw [calc_ratio_def, h0', if_neg (lt_irrefl 0), if_neg hl']
  · exact effectiveTotals_snd_nonneg (buildMaps exchangeName ps).symbol_positions
  · rfl

theorem claim1_witness :
    (calculate_long_short_ratio "binance"
        [⟨"ETHUSDT", "short", 1, some 100, some 0⟩]).long_short_ratio =
      Ratio.finite
        ((calculate_long_short_ratio "binance"
            [⟨"ETHUSDT", "short", 1, some 100, some 0⟩]).effective_long_total /
         (calculate_long_short_ratio "binance"
            [⟨"ETHUSDT", "short", 1, some 100, some 0⟩]).effective_short_total) ∧
    (calculate_long_short_ratio "binance"
        [⟨"ETHUSDT", "long", 1, some 100, some 0⟩]).long_short_ratio =
      Ratio.inf ∧
    (calculate_long_short_ratio "binance" []).long_short_ratio =
      Ratio.finite 0 :=
  ⟨(claim1_ratio_and_empty "binance"
      [⟨"ETHUSDT", "short", 1, some 100, some 0⟩]).1
      (by norm_num +decide [calculate_long_short_ratio, buildMaps, step,
        notionalValue, addTo, rawTotals, rawStep, effectiveTotals, effStep,
        excluded_tickers, pyAbs, weightOf, startsWithBTC]),
   (claim1_ratio_and_empty "binance"
      [⟨"ETHUSDT", "long", 1, some 100, some 0⟩]).2.1
      (by norm_num +decide [calculate_long_short_ratio, buildMaps, step,
        notionalValue, addTo, rawTotals, rawStep, effectiveTotals, effStep,
        excluded_tickers, pyAbs, weightOf, startsWithBTC])
      (by norm_num +decide [calculate_long_short_ratio, buildMaps, step,
        notionalValue, addTo, rawTotals, rawStep, effectiveTotals, effStep,
        excluded_tickers, pyAbs, weightOf, startsWithBTC]),
   (claim1_ratio_and_empty "binance" []).2.2.1 (by rfl)
      (by norm_num +decide [calculate_long_short_ratio, buildMaps,
        rawTotals, effectiveTotals])⟩

/-- C2: for every position list, all entries sharing one symbol accumulate
additively into that symbol's single net-notional value
(`lookup0 s … = netContrib …`), and the raw long/short buckets are filled
from the SIGN of each symbol's net value, not from any entry's side; in the
spec's example (same symbol, long +100 and short −40) the net is 60, lands
in the long bucket, and `raw_long_total = 60`. -/
theorem claim2_symbol_netting (exchangeName s : String) (ps : List Position) :
    lookup0 s (calculate_long_short_ratio exchangeName ps).symbol_positions =
      netContrib exchangeName s ps ∧
    (calculate_long_short_ratio exchangeName ps).raw_long_total =
      ((calculate_long_short_ratio exchangeName ps).symbol_positions.map
        fun kv => if 0 < kv.2 then kv.2 else 0).sum ∧
    (calculate_long_short_ratio exchangeName ps).raw_short_total =
      ((calculate_long_short_ratio exchangeName ps).symbol_positions.map
        fun kv => if kv.2 < 0 then pyAbs kv.2 else 0).sum ∧
    lookup0 "ETHUSDT"
      (calculate_long_short_ratio "binance"
        [⟨"ETHUSDT", "long", 1, some 100, some 0⟩,
         ⟨"ETHUSDT", "short", 1, some (-40), some 0⟩]).symbol_positions = 60 ∧
    (calculate_long_short_ratio "binance"
        [⟨"ETHUSDT", "long", 1, some 100, some 0⟩,
         ⟨"ETHUSDT", "short", 1, some (-40), some 0⟩]).raw_long_total = 60 := by
  refine ⟨?_, ?_, ?_, ?_, ?_⟩
  · exact lookup0_buildMaps exchangeName s ps
  · show (rawTotals (buildMaps exchangeName ps).symbol_positions).1 =
      ((buildMaps exchangeName ps).symbol_positions.map
        fun kv => if 0 < kv.2 then kv.2 else 0).sum
    rw [rawTotals_eq]
  · show (rawTotals (buildMaps exchangeName ps).symbol_positions).2 =
      ((buildMaps exchangeName ps).symbol_positions.map
        fun kv => if kv.2 < 0 then pyAbs kv.2 else 0).sum
    rw [rawTotals_eq]
  · norm_num +decide [calculate_long_short_ratio, buildMaps, step,
      notionalValue, addTo, rawTotals, rawStep, effectiveTotals, effStep,
      excluded_tickers, pyAbs, weightOf, startsWithBTC, lookup0]
  · norm_num +decide [calculate_long_short_ratio, buildMaps, step,
      notionalValue, addTo, rawTotals, rawStep, effectiveTotals, effStep,
      excluded_tickers, pyAbs, weightOf, startsWithBTC]

/-- C3: on Bybit a long position contributes `+(|notional| + pnl)` and a
short one `−(|notional| − pnl)` to its symbol's accumulator, while on every
other exchange the contributions are `+|notional|` and `−|notional|`,
exhibited on a singleton position list. -/
theorem claim3_bybit_pnl_fold (exchangeName s : String) (n pv c : ℚ)
    (hs : s ∉ excluded_tickers) (hex : exchangeName ≠ "bybit") :
    lookup0 s (calculate_long_short_ratio "bybit"
        [⟨s, "long", c, some n, some pv⟩]).symbol_positions = |n| + pv ∧
    lookup0 s (calculate_long_short_ratio "bybit"
        [⟨s, "short", c, some n, some pv⟩]).symbol_positions = -(|n| - pv) ∧
    lookup0 s (calculate_long_short_ratio exchangeName
        [⟨s, "long", c, some n, some pv⟩]).symbol_positions = |n| ∧
    lookup0 s (calculate_long_short_ratio exchangeName
        [⟨s, "short", c, some n, some pv⟩]).symbol_positions = -|n| := by
  refine ⟨?_, ?_, ?_, ?_⟩ <;>
    simp [calculate_long_short_ratio, buildMaps, step, notionalValue,
      addTo, lookup0, pnlOf, hs, hex, pyAbs_eq_abs]

theorem claim3_witness :
    lookup0 "ETH/USDT:USDT" (calculate_long_short_ratio "bybit"
        [⟨"ETH/USDT:USDT", "long", 1, some (-5), some 2⟩]).symbol_positions =
      |(-5 : ℚ)| + 2 ∧
    lookup0 "ETH/USDT:USDT" (calculate_long_short_ratio "bybit"
        [⟨"ETH/USDT:USDT", "short", 1, some (-5), some 2⟩]).symbol_positions =
      -(|(-5 : ℚ)| - 2) ∧
    lookup0 "ETH/USDT:USDT" (calculate_long_short_ratio "binance"
        [⟨"ETH/USDT:USDT", "long", 1, some (-5), some 2⟩]).symbol_positions =
      |(-5 : ℚ)| ∧
    lookup0 "ETH/USDT:USDT" (calculate_long_short_ratio "binance"
        [⟨"ETH/USDT:USDT", "short", 1, some (-5), some 2⟩]).symbol_positions =
      -|(-5 : ℚ)| :=
  claim3_bybit_pnl_fold "binance" "ETH/USDT:USDT" (-5) 2 1
    (by decide) (by decide)

/-- C4: the effective totals weight each symbol's net notional by `1/2` when
the symbol starts with `BTC` and by `1` otherwise, while the raw totals are
unweighted; a BTC-prefixed net of +1000 contributes 1000 raw and 500
effective. -/
theorem claim4_btc_half_weight (exchangeName : String) (ps : List Position) :
    (calculate_long_short_ratio exchangeName ps).effective_long_total =
      ((calculate_long_short_ratio exchangeName ps).symbol_positions.map
        fun kv => if 0 < kv.2 then
          kv.2 * (if startsWithBTC kv.1 then 1/2 else 1) else 0).sum ∧
    (calculate_long_short_ratio exchangeName ps).effective_short_total =
      ((calculate_long_short_ratio exchangeName ps).symbol_positions.map
        fun kv => if kv.2 < 0 then
          pyAbs kv.2 * (if startsWithBTC kv.1 then 1/2 else 1) else 0).sum ∧
    (calculate_long_short_ratio exchangeName ps).raw_long_total =
      ((calculate_long_short_ratio exchangeName ps).symbol_positions.map
        fun kv => if 0 < kv.2 then kv.2 else 0).sum ∧
    (calculate_long_short_ratio exchangeName ps).raw_short_total =
      ((calculate_long_short_ratio exchangeName ps).symbol_positions.map
        fun kv => if kv.2 < 0 then pyAbs kv.2 else 0).sum ∧
    (calculate_long_short_ratio "binance"
        [⟨"BTC/USDT", "long", 1, some 1000, some 0⟩]).raw_long_total = 1000 ∧
    (calculate_long_short_ratio "binance"
        [⟨"BTC/USDT", "long", 1, some 1000, some 0⟩]).effective_long_total
      = 500 := by
  refine ⟨?_, ?_, ?_, ?_, ?_, ?_⟩
  · show (effectiveTotals (buildMaps exchangeName ps).symbol_positions).1 =
      ((buildMaps exchangeName ps).symbol_positions.map
        fun kv => if 0 < kv.2 then
          kv.2 * (if startsWithBTC kv.1 then 1/2 else 1) else 0).sum
    rw [effectiveTotals_eq]
    simp only [weightOf]
  · show (effectiveTotals (buildMaps exchangeName ps).symbol_positions).2 =
      ((buildMaps exchangeName ps).symbol_positions.map
        fun kv => if kv.2 < 0 then
          pyAbs kv.2 * (if startsWithBTC kv.1 then 1/2 else 1) else 0).sum
    rw [effectiveTotals_eq]
    simp only [weightOf]
  · show (rawTotals (buildMaps exchangeName ps).symbol_positions).1 =
      ((buildMaps exchangeName ps).symbol_positions.map
        fun kv => if 0 < kv.2 then kv.2 else 0).sum
    rw [rawTotals_eq]
  · show (rawTotals (buildMaps exchangeName ps).symbol_positions).2 =
      ((buildMaps exchangeName ps).symbol_positions.map
        fun kv => if kv.2 < 0 then pyAbs kv.2 else 0).sum
    rw [rawTotals_eq]
  · norm_num +decide [calculate_long_short_ratio, buildMaps, step,
      notionalValue, addTo, rawTotals, rawStep, effectiveTotals, effStep,
      excluded_tickers, pyAbs, weightOf, startsWithBTC]
  · norm_num +decide [calculate_long_short_ratio, buildMaps, step,
      notionalValue, addTo, rawTotals, rawStep, effectiveTotals, effStep,
      excluded_tickers, pyAbs, weightOf, startsWithBTC]

/-- C5: a position on an excluded symbol changes nothing — deleting it
from any position list leaves the whole summary identical — and an excluded
symbol never appears as a key of either per-symbol map. -/
theorem claim5_excluded_symbols (exchangeName : String)
    (ps1 ps2 qs : List Position) (p : Position) (s : String)
    (hp : p.symbol ∈ excluded_tickers) (hs : s ∈ excluded_tickers) :
    calculate_long_short_ratio exchangeName (ps1 ++ p :: ps2) =
      calculate_long_short_ratio exchangeName (ps1 ++ ps2) ∧
    s ∉ keys (calculate_long_short_ratio exchangeName qs).symbol_positions ∧
    s ∉ keys (calculate_long_short_ratio exchangeName qs).symbol_pnl := by
  refine ⟨?_, ?_, ?_⟩
  · exact calculate_congr_maps _ _ _ _
      (buildMaps_skip exchangeName ps1 ps2 p
        (fun st => step_skip_excluded exchangeName st p hp))
  · intro h
    obtain ⟨q, _, hqs, hqex, _⟩ := mem_keys_buildMaps_positions exchangeName qs s h
    exact hqex (hqs ▸ hs)
  · intro h
    obtain ⟨q, _, hqs, hqex, _⟩ := mem_keys_buildMaps_pnl exchangeName qs s h
    exact hqex (hqs ▸ hs)

theorem claim5_witness :
    calculate_long_short_ratio "binance"
        ([] ++ ⟨"PAXGUSDT", "long", 1, some 100, some 5⟩ :: []) =
      calculate_long_short_ratio "binance" ([] ++ []) ∧
    "PAXGUSDT" ∉ keys (calculate_long_short_ratio "binance"
        [⟨"PAXGUSDT", "long", 1, some 100, some 5⟩]).symbol_positions :=
  ⟨(claim5_excluded_symbols "binance" [] []
      [⟨"PAXGUSDT", "long", 1, some 100, some 5⟩]
      ⟨"PAXGUSDT", "long", 1, some 100, some 5⟩ "PAXGUSDT"
      (by decide) (by decide)).1,
   (claim5_excluded_symbols "binance" [] []
      [⟨"PAXGUSDT", "long", 1, some 100, some 5⟩]
      ⟨"PAXGUSDT", "long", 1, some 100, some 5⟩ "PAXGUSDT"
      (by decide) (by decide)).2.1⟩

/-- C6: the aggregation is a pure deterministic function of the exchange
name and the position list — equal inputs give a summary equal in every
field.  (The source mutates neither its input list nor any global state, so
it embeds as a total function; purity then holds by construction.) -/
theorem claim6_deterministic (exchangeName1 exchangeName2 : String)
    (ps1 ps2 : List Position) (hex : exchangeName1 = exchangeName2)
    (hps : ps1 = ps2) :
    calculate_long_short_ratio exchangeName1 ps1 =
      calculate_long_short_ratio exchangeName2 ps2 := by
  rw [hex, hps]

theorem claim6_witness :
    calculate_long_short_ratio "binance"
        [⟨"ETHUSDT", "long", 1, some 100, some 3⟩] =
      calculate_long_short_ratio "binance"
        [⟨"ETHUSDT", "long", 1, some 100, some 3⟩] :=
  claim6_deterministic "binance" "binance"
    [⟨"ETHUSDT", "long", 1, some 100, some 3⟩]
    [⟨"ETHUSDT", "long", 1, some 100, some 3⟩] rfl rfl

/-- C10: a position whose side is neither `long` nor `short` is skipped
entirely — deleting it from any position list leaves the whole summary
identical — and a symbol carried only by such positions appears as a key of
neither per-symbol map. -/
theorem claim10_invalid_side (exchangeName : String)
    (ps1 ps2 qs : List Position) (p : Position) (s : String)
    (hl : p.side ≠ "long") (hsh : p.side ≠ "short")
    (hq : ∀ q ∈ qs, q.symbol = s → q.side ≠ "long" ∧ q.side ≠ "short") :
    calculate_long_short_ratio exchangeName (ps1 ++ p :: ps2) =
      calculate_long_short_ratio exchangeName (ps1 ++ ps2) ∧
    s ∉ keys (calculate_long_short_ratio exchangeName qs).symbol_positions ∧
    s ∉ keys (calculate_long_short_ratio exchangeName qs).symbol_pnl := by
  refine ⟨?_, ?_, ?_⟩
  · exact calculate_congr_maps _ _ _ _
      (buildMaps_skip exchangeName ps1 ps2 p
        (fun st => step_skip_side exchangeName st p hl hsh))
  · intro h
    obtain ⟨q, hqmem, hqs, _, hside⟩ :=
      mem_keys_buildMaps_positions exchangeName qs s h
    rcases hside with h' | h'
    · exact (hq q hqmem hqs).1 h'
    · exact (hq q hqmem hqs).2 h'
  · intro h
    obtain ⟨q, hqmem, hqs, _, hside⟩ :=
      mem_keys_buildMaps_pnl exchangeName qs s h
    rcases hside with h' | h'
    · exact (hq q hqmem hqs).1 h'
    · exact (hq q hqmem hqs).2 h'

theorem claim10_witness :
    calculate_long_short_ratio "binance"
        ([] ++ ⟨"ETHUSDT", "both", 1, some 100, some 5⟩ :: []) =
      calculate_long_short_ratio "binance" ([] ++ []) ∧
    "ETHUSDT" ∉ keys (calculate_long_short_ratio "binance"
        [⟨"ETHUSDT", "both", 1, some 100, some 5⟩]).symbol_positions :=
  ⟨(claim10_invalid_side "binance" [] []
      [⟨"ETHUSDT", "both", 1, some 100, some 5⟩]
      ⟨"ETHUSDT", "both", 1, some 100, some 5⟩ "ETHUSDT"
      (by decide) (by decide) (by decide)).1,
   (claim10_invalid_side "binance" [] []
      [⟨"ETHUSDT", "both", 1, some 100, some 5⟩]
      ⟨"ETHUSDT", "both", 1, some 100, some 5⟩ "ETHUSDT"
      (by decide) (by decide) (by decide)).2.1⟩

theorem isPrefixOf_rfl (l : List Char) : l.isPrefixOf l = true := by
  induction l with
  | nil => rfl
  | cons c t ih => simp [List.isPrefixOf, ih]

theorem takeBefore_colon_needle (m : List Char) (pre : List Char)
    (h : ∀ ch ∈ pre, ch ≠ ':') :
    takeBefore (':' :: m) (pre ++ ':' :: m) = some pre := by
  induction pre with
  | nil => simp [takeBefore, isPrefixOf_rfl]
  | cons c t ih =>
    have hc : c ≠ ':' := h c (List.mem_cons_self c t)
    have hc' : ((':' : Char) == c) = false :=
      beq_eq_false_iff_ne.mpr (Ne.symm hc)
    have ih' := ih (fun ch hch => h ch (List.mem_cons_of_mem c hch))
    simp [takeBefore, List.isPrefixOf, hc', ih']

theorem takeBefore_usdt_in_usdc (pre : List Char)
    (h : ∀ ch ∈ pre, ch ≠ ':') :
    takeBefore ":USDT".data (pre ++ ":USDC".data) = none := by
  induction pre with
  | nil => decide
  | cons c t ih =>
    have hc : c ≠ ':' := h c (List.mem_cons_self c t)
    have hc' : ((':' : Char) == c) = false :=
      beq_eq_false_iff_ne.mpr (Ne.symm hc)
    have ih' := ih (fun ch hch => h ch (List.mem_cons_of_mem c hch))
    rw [show (":USDT".data : List Char) = ':' :: "USDT".data from rfl] at ih' ⊢
    simp [takeBefore, List.isPrefixOf, hc', ih']

theorem cleanSymbolData_usdt (pre : List Char) (h : ∀ ch ∈ pre, ch ≠ ':') :
    cleanSymbolData (pre ++ ":USDT".data) = pre := by
  unfold cleanSymbolData
  rw [show (":USDT".data : List Char) = ':' :: "USDT".data from rfl,
    takeBefore_colon_needle "USDT".data pre h]

theorem cleanSymbolData_usdc (pre : List Char) (h : ∀ ch ∈ pre, ch ≠ ':') :
    cleanSymbolData (pre ++ ":USDC".data) = pre := by
  unfold cleanSymbolData
  rw [takeBefore_usdt_in_usdc pre h,
    show (":USDC".data : List Char) = ':' :: "USDC".data from rfl,
    takeBefore_colon_needle "USDC".data pre h]

/-- C7 (counterexample): the source's display transform is not plain
trailing-suffix removal — on `"A:USDTX"` the code cuts at the FIRST
occurrence of `:USDT` and displays `"A"`, while the claim's trailing-suffix
rule would leave `"A:USDTX"` unchanged (it has no trailing `:USDT` or
`:USDC`). -/
theorem claim7_counterexample :
    cleanSymbol "A:USDTX" ≠ stripTrailingSuffix "A:USDTX" := by decide

/-- C7 (amended): in formatted output a symbol is displayed with everything
from the first `:USDT` occurrence (else the first `:USDC` occurrence)
removed; when the settlement suffix is the only colon-part of the symbol
this coincides with stripping the trailing suffix, as on the spec's example
`"ETH/USDT:USDT"`; and the transform is display-only — every key of the
per-symbol notional map AND every key of the per-symbol PnL map is the raw,
unstripped symbol string of some input position. -/
theorem claim7_display_amended (pre : List Char) (exchangeName s s2 : String)
    (ps : List Position) (hpre : ∀ ch ∈ pre, ch ≠ ':')
    (hk : s ∈ keys
      (calculate_long_short_ratio exchangeName ps).symbol_positions)
    (hk2 : s2 ∈ keys
      (calculate_long_short_ratio exchangeName ps).symbol_pnl) :
    cleanSymbolData (pre ++ ":USDT".data) = pre ∧
    cleanSymbolData (pre ++ ":USDC".data) = pre ∧
    cleanSymbol "ETH/USDT:USDT" = "ETH/USDT" ∧
    (∃ p ∈ ps, p.symbol = s) ∧
    (∃ p ∈ ps, p.symbol = s2) := by
  refine ⟨cleanSymbolData_usdt pre hpre, cleanSymbolData_usdc pre hpre,
    by decide, ?_, ?_⟩
  · obtain ⟨p, hmem, hsym, _, _⟩ :=
      mem_keys_buildMaps_positions exchangeName ps s hk
    exact ⟨p, hmem, hsym⟩
  · obtain ⟨p, hmem, hsym, _, _⟩ :=
      mem_keys_buildMaps_pnl exchangeName ps s2 hk2
    exact ⟨p, hmem, hsym⟩

theorem claim7_witness :
    cleanSymbolData ("ETH/USDT".data ++ ":USDT".data) = "ETH/USDT".data ∧
    cleanSymbolData ("ETH/USDT".data ++ ":USDC".data) = "ETH/USDT".data ∧
    cleanSymbol "ETH/USDT:USDT" = "ETH/USDT" ∧
    (∃ p ∈ [(⟨"AVAXUSDT", "long", 1, some 10, some 0⟩ : Position)],
      p.symbol = "AVAXUSDT") ∧
    (∃ p ∈ [(⟨"AVAXUSDT", "long", 1, some 10, some 0⟩ : Position)],
      p.symbol = "AVAXUSDT") :=
  claim7_display_amended "ETH/USDT".data "binance" "AVAXUSDT" "AVAXUSDT"
    [⟨"AVAXUSDT", "long", 1, some 10, some 0⟩] (by decide) (by decide)
    (by decide)

/-- C8: a failed balance fetch — whether the ccxt call itself raises or the
extraction of the raw payload fails — returns the zero-filled balance
summary rather than raising, and a failed position fetch returns the empty
list. -/
theorem claim8_fetch_failures (exchangeName e1 e2 : String) (r : JVal)
    (hr : isErr (extractBalance exchangeName r) = true) :
    fetch_account_balance exchangeName (.error e1) = zeroBalance ∧
    fetch_positions (.error e2) = [] ∧
    fetch_account_balance exchangeName (.ok r) = zeroBalance := by
  refine ⟨rfl, rfl, ?_⟩
  show (match extractBalance exchangeName r with
    | .ok s => s
    | .error _ => zeroBalance) = zeroBalance
  cases h : extractBalance exchangeName r with
  | ok s =>
    rw [h] at hr
    exact absurd hr (by simp [isErr])
  | error m => rfl

theorem claim8_witness :
    fetch_account_balance "binance" (.error "boom") = zeroBalance ∧
    fetch_positions (.error "boom") = [] ∧
    fetch_account_balance "binance" (.ok (.str "oops")) = zeroBalance :=
  claim8_fetch_failures "binance" "boom" "boom" (.str "oops") (by decide)

theorem retryStep_posts_sleeps (second : Except String HttpResp)
    (delay : ℚ) :
    (retryStep second delay).posts = 2 ∧
    (retryStep second delay).sleeps = [delay] := by
  unfold retryStep
  rcases second with e | ⟨hOk, body⟩
  · exact ⟨rfl, rfl⟩
  · cases hOk
    · exact ⟨rfl, rfl⟩
    · cases body with
      | error e => exact ⟨rfl, rfl⟩
      | ok v => cases v <;> exact ⟨rfl, rfl⟩

theorem send_bounds (f s : Except String HttpResp) :
    (send_telegram_message f s).posts ≤ 2 ∧
    (send_telegram_message f s).sleeps.length ≤ 1 := by
  unfold send_telegram_message
  rcases f with e | ⟨hOk, body⟩
  · exact ⟨by simp, by simp⟩
  · cases hOk
    · exact ⟨by simp, by simp⟩
    · cases body with
      | error e => exact ⟨by simp, by simp⟩
      | ok v =>
        cases v with
        | obj l =>
          cases h1 : truthy ((jlookup l "ok").getD .null) with
          | true => exact ⟨by simp [h1], by simp [h1]⟩
          | false =>
            cases h2 : jeqInt ((jlookup l "error_code").getD .null) 429 with
            | false => exact ⟨by simp [h1, h2], by simp [h1, h2]⟩
            | true =>
              cases hp : (jlookup l "parameters").getD (.obj []) with
              | obj pl =>
                cases hv : validRetryAfter
                    ((jlookup pl "retry_after").getD .null) with
                | some d =>
                  obtain ⟨hposts, hsleeps⟩ := retryStep_posts_sleeps s d
                  exact ⟨by simp [h1, h2, hp, hv, hposts],
                    by simp [h1, h2, hp, hv, hsleeps]⟩
                | none =>
                  exact ⟨by simp [h1, h2, hp, hv], by simp [h1, h2, hp, hv]⟩
              | null => exact ⟨by simp [h1, h2, hp], by simp [h1, h2, hp]⟩
              | bool b => exact ⟨by simp [h1, h2, hp], by simp [h1, h2, hp]⟩
              | int n => exact ⟨by simp [h1, h2, hp], by simp [h1, h2, hp]⟩
              | num q => exact ⟨by simp [h1, h2, hp], by simp [h1, h2, hp]⟩
              | str t => exact ⟨by simp [h1, h2, hp], by simp [h1, h2, hp]⟩
              | arr a => exact ⟨by simp [h1, h2, hp], by simp [h1, h2, hp]⟩
        | null => exact ⟨by simp, by simp⟩
        | bool b => exact ⟨by simp, by simp⟩
        | int n => exact ⟨by simp, by simp⟩
        | num q => exact ⟨by simp, by simp⟩
        | str t => exact ⟨by simp, by simp⟩
        | arr a => exact ⟨by simp, by simp⟩

/-- C9: on a rate-limit body (`ok` falsy, `error_code == 429`) carrying a
positive integer `retry_after`, the notifier sleeps exactly that many
seconds and posts exactly one more time; on every other failure class (the
post raising, an HTTP error status, an unparsable body, a non-429 error, or
a 429 without a valid positive delay) it does not retry; it never posts
more than twice nor sleeps more than once; and it always returns a trace —
no delivery failure reaches the caller. -/
theorem claim9_telegram_retry (e t : String) (b : Except String JVal)
    (l pl : List (String × JVal)) (d : ℚ) (bb : Bool) (nb : ℤ) (qb : ℚ)
    (ab : List JVal) (f s : Except String HttpResp) :
    send_telegram_message (.error e) s = ⟨1, [], false⟩ ∧
    send_telegram_message (.ok ⟨false, b⟩) s = ⟨1, [], false⟩ ∧
    send_telegram_message (.ok ⟨true, .error t⟩) s = ⟨1, [], false⟩ ∧
    send_telegram_message (.ok ⟨true, .ok (.str t)⟩) s = ⟨1, [], false⟩ ∧
    send_telegram_message (.ok ⟨true, .ok .null⟩) s = ⟨1, [], false⟩ ∧
    send_telegram_message (.ok ⟨true, .ok (.bool bb)⟩) s = ⟨1, [], false⟩ ∧
    send_telegram_message (.ok ⟨true, .ok (.int nb)⟩) s = ⟨1, [], false⟩ ∧
    send_telegram_message (.ok ⟨true, .ok (.num qb)⟩) s = ⟨1, [], false⟩ ∧
    send_telegram_message (.ok ⟨true, .ok (.arr ab)⟩) s = ⟨1, [], false⟩ ∧
    (truthy ((jlookup l "ok").getD .null) = true →
      send_telegram_message (.ok ⟨true, .ok (.obj l)⟩) s = ⟨1, [], true⟩) ∧
    (truthy ((jlookup l "ok").getD .null) = false →
      jeqInt ((jlookup l "error_code").getD .null) 429 = false →
      send_telegram_message (.ok ⟨true, .ok (.obj l)⟩) s = ⟨1, [], false⟩) ∧
    (truthy ((jlookup l "ok").getD .null) = false →
      jeqInt ((jlookup l "error_code").getD .null) 429 = true →
      (jlookup l "parameters").getD (.obj []) = .obj pl →
      validRetryAfter ((jlookup pl "retry_after").getD .null) = none →
      send_telegram_message (.ok ⟨true, .ok (.obj l)⟩) s = ⟨1, [], false⟩) ∧
    (truthy ((jlookup l "ok").getD .null) = false →
      jeqInt ((jlookup l "error_code").getD .null) 429 = true →
      (∀ pl2 : List (String × JVal),
        (jlookup l "parameters").getD (.obj []) ≠ .obj pl2) →
      send_telegram_message (.ok ⟨true, .ok (.obj l)⟩) s = ⟨1, [], false⟩) ∧
    (truthy ((jlookup l "ok").getD .null) = false →
      jeqInt ((jlookup l "error_code").getD .null) 429 = true →
      (jlookup l "parameters").getD (.obj []) = .obj pl →
      validRetryAfter ((jlookup pl "retry_after").getD .null) = some d →
      (send_telegram_message (.ok ⟨true, .ok (.obj l)⟩) s).posts = 2 ∧
      (send_telegram_message (.ok ⟨true, .ok (.obj l)⟩) s).sleeps = [d]) ∧
    (send_telegram_message f s).posts ≤ 2 ∧
    (send_telegram_message f s).sleeps.length ≤ 1 := by
  refine ⟨rfl, rfl, rfl, rfl, rfl, rfl, rfl, rfl, rfl, ?_, ?_, ?_, ?_, ?_,
    (send_bounds f s).1, (send_bounds f s).2⟩
  · intro h1
    simp [send_telegram_message, h1]
  · intro h1 h2
    simp [send_telegram_message, h1, h2]
  · intro h1 h2 h3 h4
    simp [send_telegram_message, h1, h2, h3, h4]
  · intro h1 h2 hw
    cases hp : (jlookup l "parameters").getD (.obj []) with
    | obj pl2 => exact absurd hp (hw pl2)
    | null => simp [send_telegram_message, h1, h2, hp]
    | bool b2 => simp [send_telegram_message, h1, h2, hp]
    | int n2 => simp [send_telegram_message, h1, h2, hp]
    | num q2 => simp [send_telegram_message, h1, h2, hp]
    | str t2 => simp [send_telegram_message, h1, h2, hp]
    | arr a2 => simp [send_telegram_message, h1, h2, hp]
  · intro h1 h2 h3 h4
    have hsend : send_telegram_message (.ok ⟨true, .ok (.obj l)⟩) s =
        retryStep s d := by
      simp [send_telegram_message, h1, h2, h3, h4]
    rw [hsend]
    exact retryStep_posts_sleeps s d

theorem claim9_witness :
    send_telegram_message (.error "x") (.error "x") = ⟨1, [], false⟩ ∧
    send_telegram_message (.ok ⟨true, .ok .null⟩) (.error "x") =
      ⟨1, [], false⟩ ∧
    send_telegram_message
        (.ok ⟨true, .ok (.obj [("ok", .bool true)])⟩) (.error "x") =
      ⟨1, [], true⟩ ∧
    send_telegram_message
        (.ok ⟨true, .ok (.obj [("ok", .bool false),
          ("error_code", .int 400)])⟩) (.error "x") = ⟨1, [], false⟩ ∧
    send_telegram_message
        (.ok ⟨true, .ok (.obj [("ok", .bool false), ("error_code", .int 429),
          ("parameters", .int 5)])⟩) (.error "x") = ⟨1, [], false⟩ ∧
    (send_telegram_message
        (.ok ⟨true, .ok (.obj [("ok", .bool false), ("error_code", .int 429),
          ("parameters", .obj [("retry_after", .int 7)])])⟩)
        (.error "x")).posts = 2 ∧
    (send_telegram_message
        (.ok ⟨true, .ok (.obj [("ok", .bool false), ("error_code", .int 429),
          ("parameters", .obj [("retry_after", .int 7)])])⟩)
        (.error "x")).sleeps = [(7 : ℚ)] ∧
    (send_telegram_message
        (.ok ⟨true, .ok (.obj [("ok", .bool false), ("error_code", .int 429),
          ("parameters", .obj [("retry_after", .int 7)])])⟩)
        (.error "x")).posts ≤ 2 := by
  refine ⟨?_, ?_, ?_, ?_, ?_, ?_, ?_, ?_⟩
  · exact (claim9_telegram_retry "x" "x" (.ok .null) [] [] 0 false 0 0 []
      (.error "x") (.error "x")).1
  · obtain ⟨-, -, -, -, w, -⟩ :=
      claim9_telegram_retry "x" "x" (.ok .null) [] [] 0 false 0 0 []
        (.error "x") (.error "x")
    exact w
  · obtain ⟨-, -, -, -, -, -, -, -, -, w, -⟩ :=
      claim9_telegram_retry "x" "x" (.ok .null) [("ok", .bool true)] [] 0
        false 0 0 [] (.error "x") (.error "x")
    exact w rfl
  · obtain ⟨-, -, -, -, -, -, -, -, -, -, w, -⟩ :=
      claim9_telegram_retry "x" "x" (.ok .null)
        [("ok", .bool false), ("error_code", .int 400)] [] 0
        false 0 0 [] (.error "x") (.error "x")
    exact w rfl (by decide)
  · obtain ⟨-, -, -, -, -, -, -, -, -, -, -, -, w, -⟩ :=
      claim9_telegram_retry "x" "x" (.ok .null)
        [("ok", .bool false), ("error_code", .int 429),
          ("parameters", .int 5)] [] 0 false 0 0 []
        (.error "x") (.error "x")
    exact w rfl (by decide) (fun pl2 h => JVal.noConfusion h)
  · obtain ⟨-, -, -, -, -, -, -, -, -, -, -, -, -, w, -⟩ :=
      claim9_telegram_retry "x" "x" (.ok .null)
        [("ok", .bool false), ("error_code", .int 429),
          ("parameters", .obj [("retry_after", .int 7)])]
        [("retry_after", .int 7)] 7 false 0 0 []
        (.error "x") (.error "x")
    exact (w rfl (by decide) rfl (by norm_num [validRetryAfter, jlookup])).1
  · obtain ⟨-, -, -, -, -, -, -, -, -, -, -, -, -, w, -⟩ :=
      claim9_telegram_retry "x" "x" (.ok .null)
        [("ok", .bool false), ("error_code", .int 429),
          ("parameters", .obj [("retry_after", .int 7)])]
        [("retry_after", .int 7)] 7 false 0 0 []
        (.error "x") (.error "x")
    exact (w rfl (by decide) rfl (by norm_num [validRetryAfter, jlookup])).2
  · obtain ⟨-, -, -, -, -, -, -, -, -, -, -, -, -, -, w, -⟩ :=
      claim9_telegram_retry "x" "x" (.ok .null) [] [] 0 false 0 0 []
        (.ok ⟨true, .ok (.obj [("ok", .bool false), ("error_code", .int 429),
          ("parameters", .obj [("retry_after", .int 7)])])⟩)
        (.error "x")
    exact w

end PerpRatio
